import Mathlib

/-!
Shallow embedding of `src/MSC.py` (Maximum Similarity Counter).

Conventions of the embedding:
* Python/numpy floats become real numbers (`ℝ`).
* The IEEE NaN that numpy produces when a mean is taken over an empty
  vector (`0.0 / 0` under numpy's default error state emits a warning and
  yields `nan`, it does not raise) is modelled by `none : Option ℝ`; a
  genuine real result `r` is `some r`.  NaN propagation through `np.sum`
  and `np.mean` is modelled by `npMean` returning `none` as soon as one
  entry is `none` or the list is empty.
* Strings are Lean `String`s; all character-level processing follows the
  Python source character by character.
-/

/-- Model of Python `str.lower` restricted to the characters that can
influence the output of `MSC.clean`: ASCII letters are lowercased, and the
two accented capitals `É`/`È` (whose Python lowercase forms `é`/`è` are
rewritten to `e` by the subsequent replaces) are lowercased explicitly.
Every other non-ASCII character is removed unchanged by the final filter of
`MSC.clean` whether or not it is lowercased first, so the model agrees with
Python on the result of `clean`. -/
def pyLower (c : Char) : Char :=
  if c = 'É' then 'é' else if c = 'È' then 'è' else c.toLower

/-- The three single-character global replaces of `MSC.clean`:
`é → e`, `è → e`, `'\n' → ' '` (lines 166-168 of `src/MSC.py`). -/
def foldChar (c : Char) : Char :=
  if c = 'é' then 'e' else if c = 'è' then 'e' else if c = '\n' then ' ' else c

/-- The whitespace set of Python's `str.strip()` (characters for which
`str.isspace()` holds). -/
def isPySpace (c : Char) : Bool :=
  [' ', '\t', '\n', '\x0b', '\x0c', '\r', '\x1c', '\x1d', '\x1e', '\x1f',
   '\x85', '\xa0', ' ', ' ', ' ', ' ', ' ',
   ' ', ' ', ' ', ' ', ' ', ' ', ' ',
   ' ', ' ', ' ', ' ', '　'].contains c

/-- Python `text.strip()`: drop leading and trailing whitespace. -/
def pyStrip (l : List Char) : List Char :=
  ((l.dropWhile isPySpace).reverse.dropWhile isPySpace).reverse

/-- Python `re.sub(' +', ' ', text)`: every maximal run of literal space
characters is collapsed to a single space (other whitespace untouched). -/
def collapseSpaces : List Char → List Char
  | [] => []
  | [c] => [c]
  | c1 :: c2 :: rest =>
    if c1 = ' ' ∧ c2 = ' ' then collapseSpaces (c2 :: rest)
    else c1 :: collapseSpaces (c2 :: rest)

/-- The character filter of `MSC.clean` (lines 172-175 of `src/MSC.py`):
keep only `a`-`z` (97-122), `0`-`9` (48-57) and the space. -/
def allowedChar (c : Char) : Bool :=
  (97 ≤ c.toNat && c.toNat ≤ 122) || (48 ≤ c.toNat && c.toNat ≤ 57) || c == ' '

/-- `MSC.clean` (lines 151-177 of `src/MSC.py`): lowercase, fold `é`, `è`
and newlines, strip, collapse space runs, then filter to the restricted
alphabet. -/
def MSC.clean (text : String) : String :=
  String.mk ((collapseSpaces (pyStrip ((text.data.map pyLower).map foldChar))).filter
    allowedChar)

/-- Python `text.split(" ")`: split on every single space; consecutive
separators and separators at the edges produce empty words, and the empty
string splits to `[""]`. -/
def splitOnSpace : List Char → List (List Char)
  | [] => [[]]
  | c :: rest =>
    if c = ' ' then [] :: splitOnSpace rest
    else
      match splitOnSpace rest with
      | [] => [[c]]
      | w :: ws => (c :: w) :: ws

/-- Python `" ".join`, specialised to a list of words. -/
def joinSep : List (List Char) → List Char
  | [] => []
  | [w] => w
  | w :: ws => w ++ ' ' :: joinSep ws

/-- `" ".join(chr(0) for _ in range(n))` (lines 92 and 95 of
`src/MSC.py`): `n` null characters joined by single spaces. -/
def sentinelPad (n : Nat) : List Char :=
  joinSep (List.replicate n ['\x00'])

/-- `MSC.equalizeTexts` (lines 74-97 of `src/MSC.py`): compare the word
counts of the two texts and append the sentinel join to the tail of the
shorter text's raw string (with no separating space).  When the counts are
equal the `else` branch appends the empty join, leaving `text1` unchanged. -/
def MSC.equalizeTexts (text1 text2 : String) : String × String :=
  let n1 := (splitOnSpace text1.data).length
  let n2 := (splitOnSpace text2.data).length
  if n1 > n2 then
    (text1, String.mk (text2.data ++ sentinelPad (n1 - n2)))
  else
    (String.mk (text1.data ++ sentinelPad (n2 - n1)), text2)

/-- `MSC._ord` (lines 62-72 of `src/MSC.py`): the list of character codes
of a word. -/
def MSC.ordOf (w : List Char) : List ℤ :=
  w.map (fun c => (c.toNat : ℤ))

/-- The inline word equalization and difference of `MSC.similarity`
(lines 123-141 of `src/MSC.py`): convert both words to code vectors,
right-pad the shorter with zeros (the `else` branch pads `int1` with zero
entries when the lengths are equal), and return `int2 - int1` elementwise. -/
def MSC.wordDiff (word1 word2 : List Char) : List ℤ :=
  let int1 := MSC.ordOf word1
  let int2 := MSC.ordOf word2
  let n1 := int1.length
  let n2 := int2.length
  let int1p := if n1 > n2 then int1 else int1 ++ List.replicate (n2 - n1) (0 : ℤ)
  let int2p := if n1 > n2 then int2 ++ List.replicate (n1 - n2) (0 : ℤ) else int2
  List.zipWith (fun a b => b - a) int1p int2p

/-- `MSC.kernel` (lines 32-47 of `src/MSC.py`): the Gauss kernel
`exp(-0.5 * x^2 / s^2)`. -/
noncomputable def MSC.kernel (x : ℝ) (s : ℝ) : ℝ :=
  Real.exp (-0.5 * x ^ 2 / s ^ 2)

/-- `MSC.S` (lines 49-60 of `src/MSC.py`): `np.sum(kernel(X)) / len(X)`,
with the default bandwidth `s = 1`.  On the empty vector numpy's division
`0.0 / 0` yields NaN (modelled `none`) rather than raising. -/
noncomputable def MSC.S (X : List ℤ) : Option ℝ :=
  if X.length = 0 then none
  else some ((X.map (fun x : ℤ => MSC.kernel x 1)).sum / (X.length : ℝ))

/-- `np.mean` over a list of possibly-NaN floats: NaN (`none`) when the
list is empty or contains a NaN, otherwise the arithmetic mean. -/
noncomputable def npMean (l : List (Option ℝ)) : Option ℝ :=
  if l.length = 0 ∨ l.any Option.isNone then none
  else some (l.reduceOption.sum / (l.length : ℝ))

/-- `MSC.similarity` (lines 99-149 of `src/MSC.py`): clean both texts,
equalize their word counts, zip the word sequences (Python `zip` truncates
to the shorter sequence), score each aligned pair through `S ∘ wordDiff`,
and return `np.mean` of the scores. -/
noncomputable def MSC.similarity (text1 text2 : String) : Option ℝ :=
  let t1 := MSC.clean text1
  let t2 := MSC.clean text2
  let p := MSC.equalizeTexts t1 t2
  npMean ((List.zip (splitOnSpace p.1.data) (splitOnSpace p.2.data)).map
    (fun wp => MSC.S (MSC.wordDiff wp.1 wp.2)))

/-- `MSCMultiple.similarity` (lines 207-224 of `src/MSC.py`): zip the two
field lists (truncating to the shorter), score each pair with
`MSC.similarity`, and return `np.mean` of the scores. -/
noncomputable def MSCMultiple.similarity (fields1 fields2 : List String) : Option ℝ :=
  npMean ((List.zip fields1 fields2).map (fun p => MSC.similarity p.1 p.2))

example : MSC.clean "a !" = "a " := by decide
example : MSC.clean "a " = "a" := by decide
example : MSC.clean " Hello,\nWorld!! " = "hello world" := by decide
example : MSC.clean "Café" = "cafe" := by decide
example : MSC.equalizeTexts "one two three" "one" = ("one two three", "one\x00 \x00") := by decide
example : splitOnSpace "one\x00 \x00".data = ["one\x00".data, "\x00".data] := by decide
example : MSC.wordDiff "two".data "\x00".data = [-116, -119, -111] := by decide
example : MSC.wordDiff "one".data "one\x00".data = [0, 0, 0, 0] := by decide

/-! ### Basic facts about the embedded operations -/

theorem splitOnSpace_ne_nil (l : List Char) : splitOnSpace l ≠ [] := by
  induction l with
  | nil => simp [splitOnSpace]
  | cons c rest ih =>
    by_cases hc : c = ' '
    · simp [splitOnSpace, hc]
    · simp only [splitOnSpace, if_neg hc]
      cases h : splitOnSpace rest with
      | nil => simp
      | cons w ws => simp

theorem length_splitOnSpace_pos (l : List Char) : 0 < (splitOnSpace l).length :=
  List.length_pos.mpr (splitOnSpace_ne_nil l)

theorem splitOnSpace_cons_space (rest : List Char) :
    splitOnSpace (' ' :: rest) = [] :: splitOnSpace rest := by
  simp [splitOnSpace]

theorem length_splitOnSpace_cons (c : Char) (rest : List Char) (hc : c ≠ ' ') :
    (splitOnSpace (c :: rest)).length = (splitOnSpace rest).length := by
  simp only [splitOnSpace, if_neg hc]
  cases h : splitOnSpace rest with
  | nil => exact absurd h (splitOnSpace_ne_nil rest)
  | cons w ws => simp

theorem length_splitOnSpace_append (a b : List Char) :
    (splitOnSpace (a ++ b)).length =
      (splitOnSpace a).length + (splitOnSpace b).length - 1 := by
  induction a with
  | nil => simp [splitOnSpace]
  | cons c rest ih =>
    have hb := length_splitOnSpace_pos b
    have hr := length_splitOnSpace_pos rest
    by_cases hc : c = ' '
    · subst hc
      rw [List.cons_append, splitOnSpace_cons_space, splitOnSpace_cons_space,
        List.length_cons, List.length_cons, ih]
      omega
    · rw [List.cons_append, length_splitOnSpace_cons c _ hc,
        length_splitOnSpace_cons c _ hc, ih]

theorem mk_data (s : String) : String.mk s.data = s := rfl

theorem joinSep_cons (w : List Char) (ws : List (List Char)) (h : ws ≠ []) :
    joinSep (w :: ws) = w ++ ' ' :: joinSep ws := by
  cases ws with
  | nil => exact absurd rfl h
  | cons x xs => rfl

theorem length_splitOnSpace_sentinelPad (n : Nat) (hn : n ≠ 0) :
    (splitOnSpace (sentinelPad n)).length = n := by
  induction n with
  | zero => omega
  | succ m ih =>
    cases m with
    | zero => decide
    | succ k =>
      have hm : k + 1 ≠ 0 := k.succ_ne_zero
      have hj : sentinelPad (k + 2) = '\x00' :: ' ' :: sentinelPad (k + 1) := by
        show joinSep (List.replicate (k + 2) ['\x00']) = _
        rw [show List.replicate (k + 2) ['\x00'] =
            ['\x00'] :: List.replicate (k + 1) ['\x00'] from rfl,
          joinSep_cons _ _ (by simp)]
        rfl
      rw [hj, length_splitOnSpace_cons _ _ (by decide), splitOnSpace_cons_space,
        List.length_cons, ih hm]

theorem sentinelPad_zero : sentinelPad 0 = [] := rfl
/-! ### Kernel and aggregation facts -/

theorem kernel_pos (x s : ℝ) : 0 < MSC.kernel x s :=
  Real.exp_pos _

theorem kernel_le_one (x : ℝ) : MSC.kernel x 1 ≤ 1 := by
  unfold MSC.kernel
  rw [Real.exp_le_one_iff]
  nlinarith [sq_nonneg x]

theorem kernel_zero : MSC.kernel 0 1 = 1 := by
  unfold MSC.kernel
  norm_num

theorem kernel_neg (x : ℝ) : MSC.kernel (-x) 1 = MSC.kernel x 1 := by
  unfold MSC.kernel
  ring_nf

theorem kernel_eq_one_iff (x : ℝ) : MSC.kernel x 1 = 1 ↔ x = 0 := by
  unfold MSC.kernel
  rw [Real.exp_eq_one_iff]
  constructor
  · intro h
    nlinarith [sq_nonneg x]
  · intro h
    rw [h]; ring

theorem kernel_strict_anti (x y : ℝ) (h : x ^ 2 < y ^ 2) :
    MSC.kernel y 1 < MSC.kernel x 1 := by
  unfold MSC.kernel
  rw [Real.exp_lt_exp]
  nlinarith

theorem mean_bounds (l : List ℝ) (hne : l ≠ [])
    (hmem : ∀ x ∈ l, 0 < x ∧ x ≤ 1) :
    0 < l.sum / (l.length : ℝ) ∧ l.sum / (l.length : ℝ) ≤ 1 := by
  have hlen : 0 < (l.length : ℝ) := by
    exact_mod_cast List.length_pos.mpr hne
  have hsum : 0 < l.sum :=
    List.sum_pos l (fun x hx => (hmem x hx).1) hne
  have hle : l.sum ≤ (l.length : ℝ) := by
    have := List.sum_le_card_nsmul l 1 (fun x hx => (hmem x hx).2)
    simpa using this
  constructor
  · positivity
  · rw [div_le_one hlen]
    exact hle

theorem S_eq_none_iff (X : List ℤ) : MSC.S X = none ↔ X = [] := by
  unfold MSC.S
  rcases eq_or_ne X [] with rfl | hne
  · simp
  · rw [if_neg (by simpa [List.length_eq_zero] using hne)]
    simp [hne]

theorem S_bounds (X : List ℤ) (r : ℝ) (h : MSC.S X = some r) :
    0 < r ∧ r ≤ 1 := by
  unfold MSC.S at h
  split at h
  · exact absurd h (by simp)
  · next hX =>
    have hne : X ≠ [] := fun hnil => hX (by simp [hnil])
    have hr : r = (X.map (fun x : ℤ => MSC.kernel x 1)).sum / (X.length : ℝ) :=
      (Option.some_injective _ h).symm
    have hmem : ∀ y ∈ X.map (fun x : ℤ => MSC.kernel x 1), 0 < y ∧ y ≤ 1 := by
      intro y hy
      obtain ⟨x, _, rfl⟩ := List.mem_map.mp hy
      exact ⟨kernel_pos _ _, kernel_le_one _⟩
    have hmne : X.map (fun x : ℤ => MSC.kernel x 1) ≠ [] :=
      fun hmapnil => hne (List.map_eq_nil_iff.mp hmapnil)
    have := mean_bounds (X.map (fun x : ℤ => MSC.kernel x 1)) hmne hmem
    rw [List.length_map] at this
    rw [hr]
    exact this

theorem S_map_neg (X : List ℤ) : MSC.S (X.map (fun x => -x)) = MSC.S X := by
  unfold MSC.S
  rw [List.length_map, List.map_map]
  have : ((fun x : ℤ => MSC.kernel x 1) ∘ fun x : ℤ => -x) =
      fun x : ℤ => MSC.kernel x 1 := by
    funext x
    simp only [Function.comp_apply, Int.cast_neg]
    exact kernel_neg _
  rw [this]

theorem npMean_eq_none_iff (l : List (Option ℝ)) :
    npMean l = none ↔ l = [] ∨ none ∈ l := by
  unfold npMean
  by_cases h : l.length = 0 ∨ l.any Option.isNone
  · simp only [if_pos h, true_iff]
    rcases h with h | h
    · exact Or.inl (List.length_eq_zero.mp h)
    · right
      obtain ⟨o, ho, hno⟩ := List.any_eq_true.mp h
      cases o with
      | none => exact ho
      | some x => simp at hno
  · simp only [if_neg h]
    constructor
    · intro hx; exact absurd hx (by simp)
    · intro hx
      exfalso
      apply h
      rcases hx with hx | hx
      · exact Or.inl (by simp [hx])
      · exact Or.inr (List.any_eq_true.mpr ⟨none, hx, rfl⟩)

theorem npMean_bounds (l : List (Option ℝ)) (r : ℝ)
    (hmem : ∀ o ∈ l, ∀ x : ℝ, o = some x → 0 < x ∧ x ≤ 1)
    (h : npMean l = some r) : 0 < r ∧ r ≤ 1 := by
  unfold npMean at h
  split at h
  · exact absurd h (by simp)
  · next hc =>
    push_neg at hc
    obtain ⟨hlen, hnone⟩ := hc
    have hall : ∀ o ∈ l, Option.isSome o := by
      intro o ho
      cases o with
      | none =>
        exfalso
        exact hnone (List.any_eq_true.mpr ⟨none, ho, rfl⟩)
      | some x => rfl
    have hred : l.reduceOption.length = l.length :=
      List.reduceOption_length_eq_iff.mpr hall
    have hrne : l.reduceOption ≠ [] := by
      intro hnil
      apply hlen
      rw [← hred, hnil]
      rfl
    have hrm : ∀ x ∈ l.reduceOption, 0 < x ∧ x ≤ 1 := by
      intro x hx
      have := List.reduceOption_mem_iff.mp hx
      exact hmem _ this x rfl
    have hr : r = l.reduceOption.sum / (l.length : ℝ) :=
      (Option.some_injective _ h).symm
    have := mean_bounds l.reduceOption hrne hrm
    rw [hred] at this
    rw [hr]
    exact this

theorem npMean_some (l : List (Option ℝ)) (hne : l ≠ [])
    (hall : ∀ o ∈ l, Option.isSome o) : ∃ r : ℝ, npMean l = some r := by
  cases h : npMean l with
  | none =>
    rcases (npMean_eq_none_iff l).mp h with h1 | h1
    · exact absurd h1 hne
    · have := hall none h1
      simp at this
  | some r => exact ⟨r, rfl⟩
/-! ### Word difference and equalization facts -/

theorem ordOf_length (w : List Char) : (MSC.ordOf w).length = w.length := by
  unfold MSC.ordOf
  exact List.length_map _ _

theorem zipWith_sub_self (l : List ℤ) :
    List.zipWith (fun a b => b - a) l l = List.replicate l.length 0 := by
  induction l with
  | nil => rfl
  | cons x xs ih => simp [List.replicate_succ, ih]

theorem zipWith_sub_comm (l1 l2 : List ℤ) :
    List.zipWith (fun a b => b - a) l2 l1 =
      (List.zipWith (fun a b => b - a) l1 l2).map (fun x => -x) := by
  induction l1 generalizing l2 with
  | nil => cases l2 <;> rfl
  | cons x xs ih =>
    cases l2 with
    | nil => rfl
    | cons y ys =>
      simp only [List.zipWith_cons_cons, List.map_cons, List.cons.injEq]
      exact ⟨by ring, ih ys⟩

theorem wordDiff_self (w : List Char) :
    MSC.wordDiff w w = List.replicate w.length 0 := by
  simp only [MSC.wordDiff, gt_iff_lt, lt_self_iff_false, if_false,
    Nat.sub_self, List.replicate_zero, List.append_nil]
  rw [zipWith_sub_self, ordOf_length]

theorem wordDiff_length (w1 w2 : List Char) :
    (MSC.wordDiff w1 w2).length = max w1.length w2.length := by
  have e1 := ordOf_length w1
  have e2 := ordOf_length w2
  simp only [MSC.wordDiff]
  by_cases h : (MSC.ordOf w1).length > (MSC.ordOf w2).length
  · rw [if_pos h, if_pos h, List.length_zipWith, List.length_append,
      List.length_replicate]
    omega
  · rw [if_neg h, if_neg h, List.length_zipWith, List.length_append,
      List.length_replicate]
    omega

theorem wordDiff_eq_nil_iff (w1 w2 : List Char) :
    MSC.wordDiff w1 w2 = [] ↔ w1 = [] ∧ w2 = [] := by
  rw [← List.length_eq_zero, wordDiff_length]
  constructor
  · intro h
    rw [← List.length_eq_zero, ← List.length_eq_zero]
    omega
  · rintro ⟨rfl, rfl⟩
    rfl

theorem wordDiff_swap (w1 w2 : List Char) :
    MSC.wordDiff w2 w1 = (MSC.wordDiff w1 w2).map (fun x => -x) := by
  have e1 := ordOf_length w1
  have e2 := ordOf_length w2
  simp only [MSC.wordDiff]
  rcases Nat.lt_trichotomy (MSC.ordOf w1).length (MSC.ordOf w2).length with h | h | h
  · rw [if_pos h, if_pos h, if_neg (by omega), if_neg (by omega)]
    exact zipWith_sub_comm _ _
  · rw [if_neg (by omega), if_neg (by omega), if_neg (by omega), if_neg (by omega)]
    simp only [h, Nat.sub_self, List.replicate_zero, List.append_nil]
    exact zipWith_sub_comm _ _
  · rw [if_neg (by omega), if_neg (by omega), if_pos h, if_pos h]
    exact zipWith_sub_comm _ _

theorem equalizeTexts_self (t : String) : MSC.equalizeTexts t t = (t, t) := by
  simp [MSC.equalizeTexts, sentinelPad_zero, mk_data]

theorem equalizeTexts_swap (t1 t2 : String) :
    MSC.equalizeTexts t2 t1 =
      ((MSC.equalizeTexts t1 t2).2, (MSC.equalizeTexts t1 t2).1) := by
  simp only [MSC.equalizeTexts]
  rcases Nat.lt_trichotomy (splitOnSpace t1.data).length
    (splitOnSpace t2.data).length with h | h | h
  · rw [if_pos h, if_neg (by omega)]
  · rw [if_neg (by omega), if_neg (by omega), h, Nat.sub_self, sentinelPad_zero,
      List.append_nil, List.append_nil, mk_data, mk_data]
  · rw [if_neg (by omega), if_pos h]

theorem zip_self (l : List (List Char)) :
    List.zip l l = l.map (fun a => (a, a)) := by
  induction l with
  | nil => rfl
  | cons x xs ih => simp [ih]

theorem reduceOption_map_const_some (l : List α) (c : ℝ) :
    (l.map fun _ => some c).reduceOption = l.map fun _ => c := by
  induction l with
  | nil => rfl
  | cons x xs ih =>
    simp only [List.map_cons, List.reduceOption_cons_of_some, ih]

theorem npMean_map_const_one (l : List α) (hne : l ≠ []) :
    npMean (l.map fun _ => some (1 : ℝ)) = some 1 := by
  have hlen : (0 : ℝ) < l.length := by
    exact_mod_cast List.length_pos.mpr hne
  unfold npMean
  rw [if_neg]
  · rw [reduceOption_map_const_some]
    congr 1
    rw [List.length_map]
    have : (l.map fun _ => (1 : ℝ)) = List.replicate l.length 1 := by
      simp [List.map_const']
    rw [this, List.sum_replicate, nsmul_eq_mul, mul_one]
    exact div_self (ne_of_gt hlen)
  · push_neg
    constructor
    · simp [List.length_eq_zero, hne]
    · simp

theorem S_wordDiff_self (w : List Char) (hw : w ≠ []) :
    MSC.S (MSC.wordDiff w w) = some 1 := by
  rw [wordDiff_self]
  have hlen : w.length ≠ 0 := fun h0 => hw (List.length_eq_zero.mp h0)
  unfold MSC.S
  rw [if_neg (by simpa using hlen)]
  congr 1
  rw [List.map_replicate, List.length_replicate]
  have : MSC.kernel ((0 : ℤ) : ℝ) 1 = 1 := by
    rw [Int.cast_zero]
    exact kernel_zero
  rw [this, List.sum_replicate, nsmul_eq_mul, mul_one]
  exact div_self (by exact_mod_cast hlen)

/-- Helper: the similarity of a text with itself is exactly `1` whenever
every word of the cleaned text is nonempty. -/
theorem similarity_self (T : String)
    (h : ∀ w ∈ splitOnSpace (MSC.clean T).data, w ≠ []) :
    MSC.similarity T T = some 1 := by
  simp only [MSC.similarity]
  rw [equalizeTexts_self]
  rw [zip_self, List.map_map]
  have hpt : (splitOnSpace (MSC.clean T).data).map
      ((fun wp : List Char × List Char => MSC.S (MSC.wordDiff wp.1 wp.2)) ∘
        fun a => (a, a)) =
      (splitOnSpace (MSC.clean T).data).map (fun _ => some (1 : ℝ)) := by
    apply List.map_congr_left
    intro w hw
    exact S_wordDiff_self w (h w hw)
  rw [hpt]
  exact npMean_map_const_one _ (splitOnSpace_ne_nil _)
/-! ### Similarity-level helpers -/

theorem similarity_bounds (A B : String) (r : ℝ)
    (h : MSC.similarity A B = some r) : 0 < r ∧ r ≤ 1 := by
  simp only [MSC.similarity] at h
  refine npMean_bounds _ r ?_ h
  intro o ho x hox
  obtain ⟨wp, _, rfl⟩ := List.mem_map.mp ho
  exact S_bounds _ x hox

theorem multiple_bounds (f1 f2 : List String) (r : ℝ)
    (h : MSCMultiple.similarity f1 f2 = some r) : 0 < r ∧ r ≤ 1 := by
  simp only [MSCMultiple.similarity] at h
  refine npMean_bounds _ r ?_ h
  intro o ho x hox
  obtain ⟨p, _, rfl⟩ := List.mem_map.mp ho
  exact similarity_bounds _ _ x hox

/-- Helper: the per-word score list is invariant (as a list) under
swapping the two texts, because `wordDiff` only changes sign and the
kernel is even. -/
theorem sim_symm_core (ws1 ws2 : List (List Char)) :
    ((List.zip ws2 ws1).map fun wp => MSC.S (MSC.wordDiff wp.1 wp.2)) =
      ((List.zip ws1 ws2).map fun wp => MSC.S (MSC.wordDiff wp.1 wp.2)) := by
  rw [← List.zip_swap ws1 ws2, List.map_map]
  apply List.map_congr_left
  intro wp _
  simp only [Function.comp_apply, Prod.fst_swap, Prod.snd_swap]
  rw [wordDiff_swap wp.1 wp.2]
  exact S_map_neg _

/-- Helper: `similarity` yields the NaN marker `none` as soon as one
aligned word pair consists of two empty words. -/
theorem similarity_none (A B : String)
    (h : ∃ wp ∈ List.zip
        (splitOnSpace (MSC.equalizeTexts (MSC.clean A) (MSC.clean B)).1.data)
        (splitOnSpace (MSC.equalizeTexts (MSC.clean A) (MSC.clean B)).2.data),
        wp.1 = [] ∧ wp.2 = []) :
    MSC.similarity A B = none := by
  simp only [MSC.similarity]
  apply (npMean_eq_none_iff _).mpr
  right
  obtain ⟨wp, hwp, h1, h2⟩ := h
  have hS : MSC.S (MSC.wordDiff wp.1 wp.2) = none :=
    (S_eq_none_iff _).mpr ((wordDiff_eq_nil_iff _ _).mpr ⟨h1, h2⟩)
  exact hS ▸ List.mem_map_of_mem _ hwp

/-- Helper: `similarity` yields a genuine real score as soon as every
aligned word pair has at least one nonempty word. -/
theorem similarity_some (A B : String)
    (h : ∀ wp ∈ List.zip
        (splitOnSpace (MSC.equalizeTexts (MSC.clean A) (MSC.clean B)).1.data)
        (splitOnSpace (MSC.equalizeTexts (MSC.clean A) (MSC.clean B)).2.data),
        wp.1 ≠ [] ∨ wp.2 ≠ []) :
    ∃ r : ℝ, MSC.similarity A B = some r := by
  simp only [MSC.similarity]
  apply npMean_some
  · intro hnil
    rw [List.map_eq_nil_iff] at hnil
    have h1 := splitOnSpace_ne_nil (MSC.equalizeTexts (MSC.clean A) (MSC.clean B)).1.data
    have h2 := splitOnSpace_ne_nil (MSC.equalizeTexts (MSC.clean A) (MSC.clean B)).2.data
    rw [List.zip_eq_nil_iff] at hnil
    tauto
  · intro o ho
    obtain ⟨wp, hwp, rfl⟩ := List.mem_map.mp ho
    have hne : MSC.wordDiff wp.1 wp.2 ≠ [] := by
      intro hnil
      rcases (wordDiff_eq_nil_iff _ _).mp hnil with ⟨e1, e2⟩
      rcases h wp hwp with hh | hh
      · exact hh e1
      · exact hh e2
    cases hS : MSC.S (MSC.wordDiff wp.1 wp.2) with
    | none => exact absurd ((S_eq_none_iff _).mp hS) hne
    | some x => rfl

theorem npMean_singleton (r : ℝ) : npMean [some r] = some r := by
  unfold npMean
  rw [if_neg (by simp)]
  simp [List.reduceOption_cons_of_some]

theorem zip_take_eq (f1 : List α) (f2 : List β) :
    List.zip (f1.take f2.length) (f2.take f1.length) = List.zip f1 f2 := by
  induction f1 generalizing f2 with
  | nil => simp
  | cons a as ih =>
    cases f2 with
    | nil => simp
    | cons b bs => simp [List.take_succ_cons, ih bs]

theorem wordDiff_single (c1 c2 : Char) :
    MSC.wordDiff [c1] [c2] = [(c2.toNat : ℤ) - (c1.toNat : ℤ)] := by
  simp [MSC.wordDiff, MSC.ordOf]

theorem S_single (z : ℤ) : MSC.S [z] = some (MSC.kernel (z : ℝ) 1) := by
  unfold MSC.S
  rw [if_neg (by simp)]
  simp
/-! ### Normalization (clean) facts -/

theorem clean_allowed (T : String) :
    ∀ ch ∈ (MSC.clean T).data, allowedChar ch = true := by
  intro ch hch
  simp only [MSC.clean] at hch
  exact List.of_mem_filter hch

theorem allowed_toNat (c : Char) (h : allowedChar c = true) :
    (97 ≤ c.toNat ∧ c.toNat ≤ 122) ∨ (48 ≤ c.toNat ∧ c.toNat ≤ 57) ∨
      c.toNat = 32 := by
  simp only [allowedChar, Bool.or_eq_true, Bool.and_eq_true, decide_eq_true_eq,
    beq_iff_eq] at h
  rcases h with (h | h) | rfl
  · exact Or.inl h
  · exact Or.inr (Or.inl h)
  · exact Or.inr (Or.inr rfl)

theorem pyLower_allowed (c : Char) (h : allowedChar c = true) : pyLower c = c := by
  have hn := allowed_toNat c h
  unfold pyLower
  rw [if_neg, if_neg]
  · unfold Char.toLower
    rw [if_neg]
    intro hcond
    have : Char.toNat c = c.toNat := rfl
    omega
  · intro hc
    subst hc
    revert hn
    decide
  · intro hc
    subst hc
    revert hn
    decide

theorem foldChar_allowed (c : Char) (h : allowedChar c = true) : foldChar c = c := by
  have hn := allowed_toNat c h
  unfold foldChar
  rw [if_neg, if_neg, if_neg]
  · intro hc; subst hc; revert hn; decide
  · intro hc; subst hc; revert hn; decide
  · intro hc; subst hc; revert hn; decide

theorem isPySpace_of_allowed (c : Char) (h : allowedChar c = true) (hs : c ≠ ' ') :
    isPySpace c = false := by
  by_contra hc
  rw [Bool.not_eq_false] at hc
  simp [isPySpace, List.contains, List.elem_iff] at hc
  rcases hc with rfl | rfl | rfl | rfl | rfl | rfl | rfl | rfl | rfl | rfl | rfl | rfl | rfl | rfl | rfl | rfl | rfl | rfl | rfl | rfl | rfl | rfl | rfl | rfl | rfl | rfl | rfl | rfl | rfl
  all_goals first | exact hs rfl | exact absurd h (by decide)

theorem dropWhile_eq_self_of_head (p : Char → Bool) (l : List Char)
    (h : ∀ c, l.head? = some c → p c = false) : l.dropWhile p = l := by
  cases l with
  | nil => rfl
  | cons x xs =>
    rw [List.dropWhile_cons, if_neg (by simp [h x rfl])]

theorem pyStrip_eq_self (l : List Char)
    (hall : ∀ c ∈ l, allowedChar c = true)
    (hh : l.head? ≠ some ' ') (hl : l.getLast? ≠ some ' ') :
    pyStrip l = l := by
  unfold pyStrip
  have h1 : l.dropWhile isPySpace = l := by
    apply dropWhile_eq_self_of_head
    intro c hc
    have hcm : c ∈ l := List.mem_of_mem_head? hc
    have hcs : c ≠ ' ' := fun he => hh (he ▸ hc)
    exact isPySpace_of_allowed c (hall c hcm) hcs
  have h2 : l.reverse.dropWhile isPySpace = l.reverse := by
    apply dropWhile_eq_self_of_head
    intro c hc
    rw [List.head?_reverse] at hc
    have hcm : c ∈ l := List.mem_of_mem_getLast? hc
    have hcs : c ≠ ' ' := fun he => hl (he ▸ hc)
    exact isPySpace_of_allowed c (hall c hcm) hcs
  rw [h1, h2, List.reverse_reverse]

theorem collapseSpaces_eq_self (l : List Char)
    (h : ∀ p ∈ List.zip l l.tail, ¬(p.1 = ' ' ∧ p.2 = ' ')) :
    collapseSpaces l = l := by
  induction l with
  | nil => rfl
  | cons c1 rest ih =>
    cases rest with
    | nil => rfl
    | cons c2 r2 =>
      have h1 : ¬(c1 = ' ' ∧ c2 = ' ') := h (c1, c2) (List.mem_cons_self _ _)
      have h2 : ∀ p ∈ List.zip (c2 :: r2) (c2 :: r2).tail,
          ¬(p.1 = ' ' ∧ p.2 = ' ') := by
        intro p hp
        exact h p (List.mem_cons_of_mem _ hp)
      show (if c1 = ' ' ∧ c2 = ' ' then collapseSpaces (c2 :: r2)
        else c1 :: collapseSpaces (c2 :: r2)) = c1 :: c2 :: r2
      rw [if_neg h1, ih h2]

/-- Helper: `clean` leaves a string unchanged when all its characters are
already in the allowed alphabet and it has no leading, trailing or doubled
space. -/
theorem clean_of_canonical (s : String)
    (hall : ∀ c ∈ s.data, allowedChar c = true)
    (hh : s.data.head? ≠ some ' ') (hl : s.data.getLast? ≠ some ' ')
    (hch : ∀ p ∈ List.zip s.data s.data.tail, ¬(p.1 = ' ' ∧ p.2 = ' ')) :
    MSC.clean s = s := by
  unfold MSC.clean
  have h1 : s.data.map pyLower = s.data := by
    conv_rhs => rw [← List.map_id s.data]
    exact List.map_congr_left (fun c hc => pyLower_allowed c (hall c hc))
  rw [h1]
  have h2 : s.data.map foldChar = s.data := by
    conv_rhs => rw [← List.map_id s.data]
    exact List.map_congr_left (fun c hc => foldChar_allowed c (hall c hc))
  rw [h2, pyStrip_eq_self s.data hall hh hl, collapseSpaces_eq_self s.data hch,
    List.filter_eq_self.mpr hall]
/-! ### Claims -/

/-- Claim C1, counterexample: the claim fails as stated.  `"!"` is a
non-empty input text, but it normalizes to the empty string, the single
aligned word pair is two empty words, the per-word difference vector is
empty and the aggregation returns NaN (`none`), not `1.0`. -/
theorem C1_counterexample : "!" ≠ "" ∧ MSC.similarity "!" "!" ≠ some 1 := by
  have hnone : MSC.similarity "!" "!" = none := similarity_none "!" "!" (by decide)
  refine ⟨by decide, ?_⟩
  rw [hnone]
  simp

/-- Claim C1 (amended): for every text `T` all of whose cleaned words are
nonempty (in particular `clean T` itself is nonempty), `similarity(T, T)`
is exactly `1`. -/
theorem C1_reflexivity_amended (T : String)
    (h : ∀ w ∈ splitOnSpace (MSC.clean T).data, w ≠ []) :
    MSC.similarity T T = some 1 :=
  similarity_self T h

/-- Witness for C1: the hypothesis holds at `"hello world"` and the
theorem yields similarity `1` there. -/
theorem C1_witness :
    (∀ w ∈ splitOnSpace (MSC.clean "hello world").data, w ≠ []) ∧
    MSC.similarity "hello world" "hello world" = some 1 :=
  ⟨by decide, C1_reflexivity_amended "hello world" (by decide)⟩

/-- Claim C2: similarity is symmetric in its two arguments; swapping the
texts swaps the equalized pair and negates every per-character difference
vector, and the kernel is even, so the score is unchanged (NaN cases
included). -/
theorem C2_symmetry (A B : String) : MSC.similarity A B = MSC.similarity B A := by
  simp only [MSC.similarity]
  rw [equalizeTexts_swap (MSC.clean A) (MSC.clean B)]
  rw [sim_symm_core]

/-- Claim C3: whenever `MSC.similarity` (resp. `MSCMultiple.similarity`)
returns a real score `r` (i.e. the degenerate empty-aggregate NaN case does
not occur), `0 < r ≤ 1`. -/
theorem C3_boundedness :
    (∀ (A B : String) (r : ℝ), MSC.similarity A B = some r → 0 < r ∧ r ≤ 1) ∧
    (∀ (f1 f2 : List String) (r : ℝ),
      MSCMultiple.similarity f1 f2 = some r → 0 < r ∧ r ≤ 1) :=
  ⟨similarity_bounds, multiple_bounds⟩

theorem mscm_single_one : MSCMultiple.similarity ["a"] ["a"] = some 1 := by
  simp only [MSCMultiple.similarity]
  rw [show List.zip ["a"] ["a"] = [("a", "a")] from rfl]
  simp only [List.map_cons, List.map_nil]
  rw [similarity_self "a" (by decide)]
  exact npMean_singleton 1

/-- Witness for C3: both bounds are realised at concrete inputs with
score `1`. -/
theorem C3_witness :
    (0 < (1 : ℝ) ∧ (1 : ℝ) ≤ 1) ∧ (0 < (1 : ℝ) ∧ (1 : ℝ) ≤ 1) :=
  ⟨C3_boundedness.1 "a" "a" 1 (similarity_self "a" (by decide)),
   C3_boundedness.2 ["a"] ["a"] 1 mscm_single_one⟩

/-- Claim C4, counterexample: normalization is not idempotent as stated.
`clean "a !" = "a "` (the filter drops `!` after spaces were collapsed,
leaving a trailing space), and cleaning again strips that space. -/
theorem C4_counterexample :
    MSC.clean (MSC.clean "a !") ≠ MSC.clean "a !" := by decide

/-- Claim C4 (amended): `clean` is idempotent on every input whose cleaned
form has no leading, trailing or doubled space; the character filter runs
after whitespace normalization and can leave such spaces (e.g. `"a !"`). -/
theorem C4_idempotent_amended (T : String)
    (hh : (MSC.clean T).data.head? ≠ some ' ')
    (hl : (MSC.clean T).data.getLast? ≠ some ' ')
    (hch : ∀ p ∈ List.zip (MSC.clean T).data (MSC.clean T).data.tail,
      ¬(p.1 = ' ' ∧ p.2 = ' ')) :
    MSC.clean (MSC.clean T) = MSC.clean T :=
  clean_of_canonical (MSC.clean T) (clean_allowed T) hh hl hch

/-- Witness for C4: the hypotheses hold at `"ab c"` and cleaning its
cleaned form leaves it unchanged. -/
theorem C4_witness :
    ((MSC.clean "ab c").data.head? ≠ some ' ') ∧
    ((MSC.clean "ab c").data.getLast? ≠ some ' ') ∧
    (∀ p ∈ List.zip (MSC.clean "ab c").data (MSC.clean "ab c").data.tail,
      ¬(p.1 = ' ' ∧ p.2 = ' ')) ∧
    MSC.clean (MSC.clean "ab c") = MSC.clean "ab c" :=
  ⟨by decide, by decide, by decide,
    C4_idempotent_amended "ab c" (by decide) (by decide) (by decide)⟩
/-- Claim C5, counterexample: for the already-normalized texts `"a b c"`
(3 words) and `"x"` (1 word), equalization appends the sentinel block with
no leading space, so the padded text splits into 2 words, not 3: the split
sequences do NOT have equal length. -/
theorem C5_counterexample :
    MSC.clean "a b c" = "a b c" ∧ MSC.clean "x" = "x" ∧
    (splitOnSpace (MSC.equalizeTexts "a b c" "x").1.data).length ≠
      (splitOnSpace (MSC.equalizeTexts "a b c" "x").2.data).length :=
  ⟨by decide, by decide, by decide⟩

/-- Claim C5 (amended): after equalization the split word sequences have
equal length exactly when the original word counts were equal; when they
differ, the padded (shorter) text splits into `max - 1` words because the
sentinel block merges with its last word, so the final word of the longer
text has no aligned partner. -/
theorem C5_lengths_amended (t1 t2 : String) :
    (splitOnSpace (MSC.equalizeTexts t1 t2).1.data).length =
      (if (splitOnSpace t1.data).length < (splitOnSpace t2.data).length
        then (splitOnSpace t2.data).length - 1
        else (splitOnSpace t1.data).length) ∧
    (splitOnSpace (MSC.equalizeTexts t1 t2).2.data).length =
      (if (splitOnSpace t2.data).length < (splitOnSpace t1.data).length
        then (splitOnSpace t1.data).length - 1
        else (splitOnSpace t2.data).length) := by
  have h1 := length_splitOnSpace_pos t1.data
  have h2 := length_splitOnSpace_pos t2.data
  simp only [MSC.equalizeTexts]
  rcases Nat.lt_trichotomy (splitOnSpace t1.data).length
    (splitOnSpace t2.data).length with h | h | h
  · rw [if_neg (by omega)]
    constructor
    · show (splitOnSpace (t1.data ++ sentinelPad _)).length = _
      rw [length_splitOnSpace_append,
        length_splitOnSpace_sentinelPad _ (by omega), if_pos h]
      omega
    · rw [if_neg (by omega)]
  · rw [if_neg (by omega)]
    have hz : (splitOnSpace t2.data).length - (splitOnSpace t1.data).length = 0 := by
      omega
    rw [hz, sentinelPad_zero]
    constructor
    · show (splitOnSpace (t1.data ++ [])).length = _
      rw [List.append_nil, if_neg (by omega)]
    · rw [if_neg (by omega)]
  · rw [if_pos h]
    constructor
    · rw [if_neg (by omega)]
    · show (splitOnSpace (t2.data ++ sentinelPad _)).length = _
      rw [length_splitOnSpace_append,
        length_splitOnSpace_sentinelPad _ (by omega), if_pos h]
      omega

/-- Claim C6, counterexample: `similarity("", "")` does not raise: the
call completes and returns the NaN float produced by the empty-vector
mean (modelled `none`), so no real score — and no exception — results. -/
theorem C6_counterexample : (MSC.similarity "" "").isSome = false := by
  rw [similarity_none "" "" (by decide)]
  rfl

/-- Claim C6 (amended): `similarity("", "")` returns NaN (the aggregation
over the empty per-character difference vector divides `0.0` by `0`),
rather than raising `InvalidInput`; no real-valued fallback score is
returned either. -/
theorem C6_empty_nan_amended :
    MSC.similarity "" "" = none ∧ ∀ r : ℝ, MSC.similarity "" "" ≠ some r := by
  have h : MSC.similarity "" "" = none := similarity_none "" "" (by decide)
  exact ⟨h, fun r hr => by rw [h] at hr; exact Option.noConfusion hr⟩

/-- Claim C7, counterexample: with mismatched field lists `["a", "b"]` and
`["a"]` the multi-field comparison does not fail: `zip` silently drops
`"b"` and the mean over the single aligned pair `("a", "a")` is `1`. -/
theorem C7_counterexample : MSCMultiple.similarity ["a", "b"] ["a"] = some 1 := by
  simp only [MSCMultiple.similarity]
  rw [show List.zip ["a", "b"] ["a"] = [("a", "a")] from rfl]
  simp only [List.map_cons, List.map_nil]
  rw [similarity_self "a" (by decide)]
  exact npMean_singleton 1

/-- Claim C7 (amended): the multi-field comparison never fails on
mismatched lengths; it silently compares only the aligned prefix — the
result is unchanged when each list is truncated to the other's length. -/
theorem C7_truncation_amended (f1 f2 : List String) :
    MSCMultiple.similarity f1 f2 =
      MSCMultiple.similarity (f1.take f2.length) (f2.take f1.length) := by
  simp only [MSCMultiple.similarity]
  rw [zip_take_eq]

/-- Claim C8: `similarity("one two three", "one")` equalizes with the
documented quirk (the sentinel block is appended with no leading space and
merges with `"one"`), completes without raising, and returns a score in
`(0, 1]`. -/
theorem C8_word_count_mismatch :
    MSC.equalizeTexts (MSC.clean "one two three") (MSC.clean "one") =
      ("one two three", "one\x00 \x00") ∧
    ∃ r : ℝ, MSC.similarity "one two three" "one" = some r ∧ 0 < r ∧ r ≤ 1 := by
  refine ⟨by decide, ?_⟩
  obtain ⟨r, hr⟩ := similarity_some "one two three" "one" (by decide)
  exact ⟨r, hr, similarity_bounds _ _ r hr⟩
/-- Claim C9: for single-character words the per-word score (over the
real-valued embedding of the kernel) is strictly decreasing in the
absolute difference of the two character codes, is at most `1`, and
attains `1` exactly when the codes are equal. -/
theorem C9_monotone_decay :
    (∀ c1 c2 c3 c4 : Char,
        ((c2.toNat : ℤ) - (c1.toNat : ℤ)).natAbs <
          ((c4.toNat : ℤ) - (c3.toNat : ℤ)).natAbs →
        ∀ r1 r2 : ℝ, MSC.S (MSC.wordDiff [c1] [c2]) = some r1 →
          MSC.S (MSC.wordDiff [c3] [c4]) = some r2 → r2 < r1) ∧
    (∀ c1 c2 : Char, ∀ r : ℝ, MSC.S (MSC.wordDiff [c1] [c2]) = some r →
        r ≤ 1 ∧ (r = 1 ↔ c2.toNat = c1.toNat)) := by
  constructor
  · intro c1 c2 c3 c4 h r1 r2 h1 h2
    rw [wordDiff_single, S_single] at h1 h2
    have e1 : r1 = MSC.kernel (((c2.toNat : ℤ) - (c1.toNat : ℤ) : ℤ) : ℝ) 1 :=
      (Option.some_injective _ h1).symm
    have e2 : r2 = MSC.kernel (((c4.toNat : ℤ) - (c3.toNat : ℤ) : ℤ) : ℝ) 1 :=
      (Option.some_injective _ h2).symm
    set a : ℤ := (c2.toNat : ℤ) - (c1.toNat : ℤ) with ha
    set b : ℤ := (c4.toNat : ℤ) - (c3.toNat : ℤ) with hb
    have habs : |a| < |b| := by
      rw [Int.abs_eq_natAbs, Int.abs_eq_natAbs]
      exact_mod_cast h
    have hsq : a ^ 2 < b ^ 2 := by
      nlinarith [sq_abs a, sq_abs b, abs_nonneg a, abs_nonneg b, habs]
    have hsqR : ((a : ℝ)) ^ 2 < ((b : ℝ)) ^ 2 := by exact_mod_cast hsq
    rw [e1, e2]
    exact kernel_strict_anti (a : ℝ) (b : ℝ) hsqR
  · intro c1 c2 r h
    rw [wordDiff_single, S_single] at h
    have e : r = MSC.kernel (((c2.toNat : ℤ) - (c1.toNat : ℤ) : ℤ) : ℝ) 1 :=
      (Option.some_injective _ h).symm
    subst e
    refine ⟨kernel_le_one _, ?_⟩
    rw [kernel_eq_one_iff]
    constructor
    · intro h0
      have hz : ((c2.toNat : ℤ) - (c1.toNat : ℤ)) = 0 := by exact_mod_cast h0
      omega
    · intro h0
      have hz : ((c2.toNat : ℤ) - (c1.toNat : ℤ)) = 0 := by omega
      exact_mod_cast congrArg (fun z : ℤ => (z : ℝ)) hz

/-- Witness for C9: a code gap of `2` (`'a'` vs `'c'`) scores strictly
below a gap of `1` (`'a'` vs `'b'`), and the gap-1 score is at most `1`
and is not `1`. -/
theorem C9_witness :
    MSC.kernel ((2 : ℤ) : ℝ) 1 < MSC.kernel ((1 : ℤ) : ℝ) 1 ∧
    (MSC.kernel ((1 : ℤ) : ℝ) 1 ≤ 1 ∧
      (MSC.kernel ((1 : ℤ) : ℝ) 1 = 1 ↔ 'b'.toNat = 'a'.toNat)) := by
  constructor
  · apply C9_monotone_decay.1 'a' 'b' 'a' 'c' (by decide)
    · rw [show MSC.wordDiff ['a'] ['b'] = [(1 : ℤ)] from by decide]
      exact S_single 1
    · rw [show MSC.wordDiff ['a'] ['c'] = [(2 : ℤ)] from by decide]
      exact S_single 2
  · apply C9_monotone_decay.2 'a' 'b'
    rw [show MSC.wordDiff ['a'] ['b'] = [(1 : ℤ)] from by decide]
    exact S_single 1

/-- Claim C10: `MSC.similarity` always returns a value (a real score, or
the NaN marker `none`) and never raises; in the degenerate cases the
result is NaN: a doubled space in the cleaned text yields an aligned pair
of empty words (e.g. `"a ! b"` cleans to `"a  b"`), and the multi-field
comparison of two empty lists takes the mean of an empty vector. -/
theorem C10_total_nan :
    (∀ t1 t2 : String, MSC.similarity t1 t2 = none ∨
      ∃ r : ℝ, MSC.similarity t1 t2 = some r) ∧
    MSC.similarity "a ! b" "a ! b" = none ∧
    MSCMultiple.similarity [] [] = none := by
  refine ⟨?_, ?_, ?_⟩
  · intro t1 t2
    cases h : MSC.similarity t1 t2 with
    | none => exact Or.inl rfl
    | some r => exact Or.inr ⟨r, rfl⟩
  · exact similarity_none _ _ (by decide)
  · exact (npMean_eq_none_iff _).mpr (Or.inl rfl)
